import Mathlib

/-!
Verification development for the context-aware quantum environment
(`src/rl_qoc/context_aware_quantum_environment.py`).

The embedding below models the episode stepper (`reset` / `step` /
`trunc_index`), the per-occurrence action buffer (`create_array` and the
`vstack`/`reshape` flatten in `step`), the context-truncation loop of
`define_target_and_circuits`, and the parameter-assignment loop of
`set_circuit_context`.  Machine floats carrying fidelities are modelled as
real numbers together with an explicit non-finite marker (NaN/Inf); action
values are modelled as rationals (their numeric content is never computed
with, only stored and moved).  Gate names are abstracted as numeric
identifiers.
-/

namespace QOC

/-- A single entry of the score vector returned by the execution
collaborator: either a finite float value or a NaN/Inf entry. -/
inductive ScoreVal where
  | fin (x : ℝ)
  | nonfin
deriving Inhabited

/-- Whether a score entry is a finite float (neither NaN nor Inf). -/
def ScoreVal.isFin : ScoreVal → Bool
  | .fin _ => true
  | .nonfin => false

/-- The `optimal_error_precision = 1e-6` constant of `step`. -/
noncomputable def epsPrec : ℝ := 1 / 1000000

/-- Models `np.clip(reward, a_min=0.0, a_max=1.0 - 1e-6)` on one entry. -/
noncomputable def clipScore (x : ℝ) : ℝ := min (max x 0) (1 - epsPrec)

/-- Models `-np.log(1.0 - reward)` after the clip, on one entry.  Floats are
modelled as reals, so this (and everything that embeds it, such as `stepFn`)
is noncomputable; concrete instances are evaluated by kernel reduction. -/
noncomputable def negLogReward (x : ℝ) : ℝ := - Real.log (1 - clipScore x)

/-- Static configuration of `ContextAwareQuantumEnvironment` relevant to the
episode stepper: `tgt_instruction_counts` (`k`), `batch_size`, `n_actions`,
`training_steps_per_gate`, the `intermediate_rewards` flag and the
`_target_instruction_timings` list. -/
structure EnvConfig where
  k : ℕ
  batch : ℕ
  nActions : ℕ
  stepsPerGate : ℕ
  intermediate : Bool
  timings : List ℕ

/-- Mutable environment state: `_step_tracker` (the base-class `step_tracker`
property reads this same counter), `_inside_trunc_tracker`, `_episode_ended`,
`_param_values` and `reward_history`.  The reporting-only fields
`_max_return` / `_optimal_action` are not consulted by any control flow and
are omitted. -/
structure EnvState where
  stepTracker : ℕ
  inside : ℕ
  episodeEnded : Bool
  paramValues : List (List (List (List ℚ)))
  rewardHistory : List (List ScoreVal)

/-- Models the module-level `create_array(circ_trunc, batchsize, n_actions)`:
an object array whose entry `i` is a zero array of shape
`(i + 1, batchsize, n_actions)`. -/
def create_array (circTrunc batchsize nActions : ℕ) : List (List (List (List ℚ))) :=
  (List.range circTrunc).map fun i =>
    List.replicate (i + 1) (List.replicate batchsize (List.replicate nActions (0 : ℚ)))

/-- Models the `trunc_index` property: `step_tracker % tgt_instruction_counts`
when intermediate rewards are enabled, otherwise
`np.min([_step_tracker // training_steps_per_gate, tgt_instruction_counts - 1])`. -/
def truncIndex (cfg : EnvConfig) (stepTracker : ℕ) : ℕ :=
  if cfg.intermediate then stepTracker % cfg.k
  else min (stepTracker / cfg.stepsPerGate) (cfg.k - 1)

/-- Modelled from the spec: the `super().reset(seed)` call made by `reset`
runs `BaseQuantumEnvironment.reset`, which is not under `src/`.  Per the
spec, the episode state machine goes back to `READY` on reset (the
episode-ended flag is cleared) and the global step counter is *not* reset
("`global_step` increments once per `step()` call regardless of branch
taken"). -/
def baseReset (st : EnvState) : EnvState :=
  { st with episodeEnded := false }

/-- Models `ContextAwareQuantumEnvironment.reset`: calls the base reset,
reallocates `_param_values` with `create_array` and sets
`_inside_trunc_tracker = 0`. -/
def resetEnv (cfg : EnvConfig) (st : EnvState) : EnvState :=
  let st1 := baseReset st
  { st1 with
      paramValues := create_array cfg.k cfg.batch cfg.nActions,
      inside := 0 }

/-- Observation returned by `_get_obs`.  The generic branch returns
`np.array([0, _target_instruction_timings[_inside_trunc_tracker]])`; when
intermediate rewards are enabled, `step` instead returns the reward vector
as the observation.  (The `reward_method == "state"` branch of `_get_obs`
reads base-class input-state bookkeeping that is not under `src/` and is
not needed by any claim; only the generic branch is modelled.) -/
inductive Obs where
  | vec (progress : ℚ) (time : ℕ)
  | rewardObs (r : List ScoreVal)

/-- Models `_get_obs` (generic branch).  Out-of-range indexing (impossible
in reachable states, where `_inside_trunc_tracker ≤ k - 1`) is defaulted. -/
def obsOf (cfg : EnvConfig) (st : EnvState) : Obs :=
  Obs.vec 0 (cfg.timings.getD st.inside 0)

/-- Errors raised by `step`: the explicit batch-size `ValueError`, the
numpy `IndexError` from assigning a row index past the end of a truncation
level, and the two `AssertionError`s guarding the terminal reward. -/
inductive StepError where
  | batchMismatch (got expected : ℕ)
  | rowIndexOOB (row rows : ℕ)
  | rewardSizeMismatch (got expected : ℕ)
  | invalidReward
deriving DecidableEq

/-- The 4 visible components of the `step` return tuple (the `info` dict is
constant and omitted). -/
structure StepOut where
  obs : Obs
  reward : List ScoreVal
  terminated : Bool
  truncated : Bool

/-- Result of one `step` call: a normal return or a raised error. -/
inductive StepOutcome where
  | ok (out : StepOut)
  | err (e : StepError)

/-- The `terminated` flag of a normal return, if any. -/
def StepOutcome.terminatedQ : StepOutcome → Option Bool
  | .ok o => some o.terminated
  | .err _ => none

/-- The `truncated` flag of a normal return, if any. -/
def StepOutcome.truncatedQ : StepOutcome → Option Bool
  | .ok o => some o.truncated
  | .err _ => none

/-- The reward vector of a normal return, if any. -/
def StepOutcome.rewardQ : StepOutcome → Option (List ScoreVal)
  | .ok o => some o.reward
  | .err _ => none

/-- Models `ContextAwareQuantumEnvironment.step`.

The external execution collaborator (`perform_action`, which consumes the
flattened action buffer and returns the per-batch-element score vector) is
out of scope per the spec and is passed in as the `scores` argument; it is
consulted by the intermediate-reward branch and by the terminal branch.
The Python call mutates `self` even when it raises, so the post-call state
is returned alongside the outcome.  Faithful ordering points: the step
counter is incremented before every branch; the episode-ended early return
happens before the batch-size validation; the terminal branch sets
`_episode_ended = True` and appends to `reward_history` *before* the two
assertions. -/
noncomputable def stepFn (cfg : EnvConfig) (scores : List ScoreVal) (action : List (List ℚ))
    (st : EnvState) : StepOutcome × EnvState :=
  let truncIdx := truncIndex cfg st.stepTracker
  let stepStatus := st.inside
  let st1 : EnvState := { st with stepTracker := st.stepTracker + 1 }
  if st.episodeEnded then
    let st2 := resetEnv cfg st1
    (.ok ⟨obsOf cfg st2, List.replicate cfg.batch (ScoreVal.fin 0), true, false⟩, st2)
  else if cfg.k ≤ truncIdx then
    let st2 := resetEnv cfg st1
    (.ok ⟨obsOf cfg st2, List.replicate cfg.batch (ScoreVal.fin 0), false, true⟩, st2)
  else if action.length ≠ cfg.batch then
    (.err (.batchMismatch action.length cfg.batch), st1)
  else
    let level := st1.paramValues.getD truncIdx []
    if level.length ≤ stepStatus then
      (.err (.rowIndexOOB stepStatus level.length), st1)
    else
      let st2 : EnvState :=
        { st1 with paramValues := st1.paramValues.set truncIdx (level.set stepStatus action) }
      if stepStatus < truncIdx then
        let st3 : EnvState := { st2 with inside := stepStatus + 1 }
        if cfg.intermediate then
          (.ok ⟨Obs.rewardObs scores, scores, false, false⟩, st3)
        else
          (.ok ⟨obsOf cfg st3, List.replicate action.length (ScoreVal.fin 0), false, false⟩, st3)
      else
        let st3 : EnvState :=
          { st2 with episodeEnded := true, rewardHistory := st2.rewardHistory ++ [scores] }
        let obs := if cfg.intermediate then Obs.rewardObs scores else obsOf cfg st3
        if scores.length ≠ cfg.batch then
          (.err (.rewardSizeMismatch scores.length cfg.batch), st3)
        else if scores.any (fun v => !v.isFin) then
          (.err .invalidReward, st3)
        else
          (.ok ⟨obs,
                scores.map (fun v =>
                  match v with
                  | .fin x => ScoreVal.fin (negLogReward x)
                  | .nonfin => ScoreVal.nonfin),
                true, false⟩, st3)

/-- State after `n` consecutive `step` calls with the same action batch and
the same collaborator response. -/
noncomputable def runSteps (cfg : EnvConfig) (scores : List ScoreVal) (action : List (List ℚ)) :
    ℕ → EnvState → EnvState
  | 0, st => st
  | n + 1, st => runSteps cfg scores action n (stepFn cfg scores action st).2

/-- Models `np.vstack([param_set for param_set in self._param_values[trunc_index]])`:
the rows of a truncation level, stacked. -/
def vstackRows (rows : List (List (List ℚ))) : List (List ℚ) := rows.flatten

/-- Row-major refill, as performed by `np.reshape(..., (batch_size, cols))`:
the flat data is cut into `batchsize` consecutive rows of `cols` entries. -/
def reshapeRows : ℕ → ℕ → List ℚ → List (List ℚ)
  | 0, _, _ => []
  | r + 1, c, l => l.take c :: reshapeRows r c (l.drop c)

/-- Models the flatten in `step`:
`np.reshape(np.vstack([...]), (batch_size, (trunc_index + 1) * n_actions))`,
i.e. the row-major reshape of the stacked rows of one truncation level. -/
def flattenLevel (level : List (List (List ℚ))) (batchsize cols : ℕ) : List (List ℚ) :=
  reshapeRows batchsize cols (vstackRows level).flatten

/-- Sequential in-place writes `level[start] = b`, `level[start+1] = ...`,
as performed by `self._param_values[trunc_index][step_status] = params`
across the sub-steps of one truncation level. -/
def writeRows (level : List (List (List ℚ))) (start : ℕ) :
    List (List (List ℚ)) → List (List (List ℚ))
  | [] => level
  | b :: bs => writeRows (level.set start b) (start + 1) bs

/-
Context truncator (`define_target_and_circuits`).

Qubits of the circuit context are identified with their physical indices
(the code builds `circ_tgt_register` from `circuit_context.qubits[i] for i
in physical_qubits`, and likewise `circ_nn_qubits` / `circ_anc_qubits`
from the physical neighbor lists, so the context qubit at index `q` and
the physical qubit `q` correspond one to one).
-/

/-- One `CircuitInstruction` of the circuit context: an operation identifier
(gate names abstracted as numerals) and its qubit indices.  Equality of
instructions (`instruction == self.target_instruction`) compares both. -/
structure Instr where
  op : ℕ
  qubits : List ℕ
deriving DecidableEq

/-- A qubit of a truncated circuit: a slot of the `tgt`, `nn` or `anc`
register, or a marker for a context qubit present in none of the three
register lists (in Python such a qubit would raise a `KeyError` on the
`mapping` dict; no well-formed context produces one). -/
inductive RQubit where
  | tgt (i : ℕ)
  | nn (i : ℕ)
  | anc (i : ℕ)
  | unmapped (q : ℕ)
deriving DecidableEq

/-- An instruction of a truncated circuit: a remapped context instruction,
or the parametrized sub-program inserted by the external
`parametrized_circuit_func` callback in place of the `j`-th target
occurrence (the callback receives `self.parameters[counts]`; its body is an
external collaborator per the spec and is represented opaquely by the
parameter index it receives). -/
inductive CInstr where
  | gate (op : ℕ) (qubits : List RQubit)
  | parametrized (j : ℕ)
deriving DecidableEq

/-- Static data of `define_target_and_circuits`: the scheduled circuit
context (`data` with `op_start_times`), the target gate, and the three
qubit lists (`physical_target_qubits` / `physical_neighbor_qubits` /
`physical_next_neighbor_qubits`). -/
structure TruncCfg where
  data : List Instr
  opStartTimes : List ℕ
  tgtGate : ℕ
  tgtQubits : List ℕ
  nnQubits : List ℕ
  ancQubits : List ℕ

/-- The `target_instruction` built in `__init__`: the target gate applied to
the `circ_tgt_register` qubits. -/
def targetInstr (cfg : TruncCfg) : Instr :=
  ⟨cfg.tgtGate, cfg.tgtQubits⟩

/-- Models the module-level `target_instruction_timings`: the start times of
the instructions equal to the target instruction, in data order. -/
def tgtTimings (cfg : TruncCfg) : List ℕ :=
  ((cfg.opStartTimes.zip cfg.data).filter
    (fun p => decide (p.2 = targetInstr cfg))).map Prod.fst

/-- `self._target_instruction_timings[i]`. -/
def timingAt (cfg : TruncCfg) (i : ℕ) : ℕ :=
  (tgtTimings cfg).getD i 0

/-- The `mapping` dict from context qubits to the single-qubit registers of
the truncated circuits.  It is built by inserting the `tgt`, `nn` and `anc`
entries in that order, so on (pathological) overlap the later insertion
wins: `anc`, then `nn`, then `tgt` is consulted. -/
def remapQubit (cfg : TruncCfg) (q : ℕ) : RQubit :=
  match cfg.ancQubits.findIdx? (fun r => decide (r = q)) with
  | some i => RQubit.anc i
  | none =>
    match cfg.nnQubits.findIdx? (fun r => decide (r = q)) with
    | some i => RQubit.nn i
    | none =>
      match cfg.tgtQubits.findIdx? (fun r => decide (r = q)) with
      | some i => RQubit.tgt i
      | none => RQubit.unmapped q

/-- The check
`any(qubit in reg for reg in [self.circ_tgt_register, circ_nn_qubits] for qubit in instruction.qubits)`:
the instruction touches a target-register qubit or a (precomputed)
nearest-neighbor qubit.  Next-neighbor (`anc`) qubits do not qualify. -/
def involvesTargetQubits (cfg : TruncCfg) (inst : Instr) : Bool :=
  inst.qubits.any (fun q => cfg.tgtQubits.contains q || cfg.nnQubits.contains q)

/-- State threaded through the instruction loop for one occurrence `i`:
`counts` (number of target occurrences admitted so far), the qubits added
to the two circuits beyond the initial target register, the layout entries,
the baseline and custom instruction lists, and a trace of the admitted
instructions, each tagged with the value of `counts` at its admission and
its start time. -/
structure TruncState where
  counts : ℕ
  added : List RQubit
  layout : List (RQubit × ℕ)
  baseline : List CInstr
  custom : List CInstr
  admitted : List (ℕ × ℕ × Instr)

/-- Initial qubits of both circuits: the bits of `tgt_register`. -/
def initQubits (cfg : TruncCfg) : List RQubit :=
  (List.range cfg.tgtQubits.length).map RQubit.tgt

/-- Initial state for occurrence `i`: empty circuits over `tgt_register`
and the layout `{tgt_register[i]: physical_target_qubits[i]}`. -/
def initTruncState (cfg : TruncCfg) : TruncState :=
  { counts := 0
    added := []
    layout := (List.range cfg.tgtQubits.length).map
      (fun i => (RQubit.tgt i, cfg.tgtQubits.getD i 0))
    baseline := []
    custom := []
    admitted := [] }

/-- Layout entry added with a newly touched non-target qubit
(`layouts[i].add(mapping[qubit], physical_qubits[q_reg.index(mapping[qubit])])`):
since `circ_nn_qubits[j]` is the context qubit at physical index
`physical_neighbor_qubits[j]` (and likewise for `anc`), the added physical
index is the context index `q` itself. -/
def layoutEntry (cfg : TruncCfg) (q : ℕ) : RQubit × ℕ :=
  (remapQubit cfg q, q)

/-- Body of `for qubit in involved_qubits`: if the mapped qubit is not yet a
qubit of the circuits, add it to both (`add_bits`) and extend the layout. -/
def addQubit (cfg : TruncCfg) (st : TruncState) (q : ℕ) : TruncState :=
  if remapQubit cfg q ∈ initQubits cfg ++ st.added then st
  else
    { st with
        added := st.added ++ [remapQubit cfg q]
        layout := st.layout ++ [layoutEntry cfg q] }

/-- Body of the instruction loop of `define_target_and_circuits` for
occurrence `i`, processing one `(start_time, instruction)` pair.  An
instruction is admitted when
`(counts <= i or start_time <= self._target_instruction_timings[i]) and involves_target_qubits`;
an admitted instruction has its non-target qubits added, is appended
remapped to the baseline circuit, and is appended remapped to the custom
circuit unless it *is* the target instruction, in which case the
parametrized callback output for parameter vector `counts` is appended
instead and `counts` is incremented. -/
def processInstr (cfg : TruncCfg) (i : ℕ) (st : TruncState) (p : ℕ × Instr) : TruncState :=
  let t := p.1
  let inst := p.2
  if ((decide (st.counts ≤ i) || decide (t ≤ timingAt cfg i)) &&
      involvesTargetQubits cfg inst) then
    let involved := inst.qubits.filter (fun q => !cfg.tgtQubits.contains q)
    let st1 := involved.foldl (addQubit cfg) st
    let remapped := CInstr.gate inst.op (inst.qubits.map (remapQubit cfg))
    if inst = targetInstr cfg then
      { st1 with
          baseline := st1.baseline ++ [remapped]
          custom := st1.custom ++ [CInstr.parametrized st1.counts]
          counts := st1.counts + 1
          admitted := st1.admitted ++ [(st1.counts, t, inst)] }
    else
      { st1 with
          baseline := st1.baseline ++ [remapped]
          custom := st1.custom ++ [remapped]
          admitted := st1.admitted ++ [(st1.counts, t, inst)] }
  else st

/-- The full instruction loop of `define_target_and_circuits` for
occurrence `i`: fold over `zip(self._op_start_times, self._circuit_context.data)`. -/
def truncRun (cfg : TruncCfg) (i : ℕ) : TruncState :=
  (cfg.opStartTimes.zip cfg.data).foldl (processInstr cfg i) (initTruncState cfg)

/-
Parameter assignment in `set_circuit_context` (the `new_context is None`
branch).
-/

/-- The circuit context as seen by the parameter loop: its unassigned
parameters (names abstracted as numerals) and the in-place assignments
performed so far (parameter values abstracted as integers). -/
structure CircuitCtx where
  unassigned : List ℕ
  assigned : List (ℕ × ℤ)
deriving DecidableEq

/-- `self._circuit_context.has_parameter(param)`. -/
def hasParameter (ctx : CircuitCtx) (p : ℕ) : Bool :=
  ctx.unassigned.contains p

/-- `self._circuit_context.assign_parameters({param: kwargs[param]}, inplace=True)`. -/
def assignParameter (ctx : CircuitCtx) (p : ℕ) (v : ℤ) : CircuitCtx :=
  { unassigned := ctx.unassigned.erase p
    assigned := ctx.assigned ++ [(p, v)] }

/-- The `for param in kwargs` loop of `set_circuit_context` when no new
context is supplied: assign each known parameter in place; raise
`ValueError` at the first parameter the context does not have.  Because the
assignments are in place, the context returned with a raised error retains
the assignments made before the failure. -/
def setCircuitContextParams (ctx : CircuitCtx) : List (ℕ × ℤ) → Option ℕ × CircuitCtx
  | [] => (none, ctx)
  | (p, v) :: rest =>
    if hasParameter ctx p then setCircuitContextParams (assignParameter ctx p v) rest
    else (some p, ctx)

/-- The baseline-circuit image of one admitted-trace entry: the instruction
remapped through the register mapping. -/
def baseOf (cfg : TruncCfg) (x : ℕ × ℕ × Instr) : CInstr :=
  CInstr.gate x.2.2.op (x.2.2.qubits.map (remapQubit cfg))

/-- The custom-circuit image of one admitted-trace entry: the parametrized
callback insertion for the recorded occurrence count if the instruction is
the target instruction, the remapped instruction otherwise. -/
def custOf (cfg : TruncCfg) (x : ℕ × ℕ × Instr) : CInstr :=
  if x.2.2 = targetInstr cfg then CInstr.parametrized x.1 else baseOf cfg x

/-
Concrete instances used by witnesses and counterexamples.
-/

/-- The spec scenario configuration: `k = 3`, `batch_size = 4`,
`action_dim = 2`, `steps_per_occurrence = 10`, intermediate rewards
disabled. -/
def cfgScenario : EnvConfig := ⟨3, 4, 2, 10, false, [0, 1, 2]⟩

/-- A freshly reset state of the scenario environment at `global_step = 25`. -/
def st25 : EnvState := ⟨25, 0, false, create_array 3 4 2, []⟩

/-- A `4 × 2` action batch for the scenario environment. -/
def act42 : List (List ℚ) := [[0, 0], [0, 0], [0, 0], [0, 0]]

/-- A minimal configuration: one target occurrence, batch size 1, one
action parameter, curriculum mode. -/
def cfgSingle : EnvConfig := ⟨1, 1, 1, 10, false, [0]⟩

/-- A freshly reset state of the minimal environment. -/
def stSingle : EnvState := ⟨0, 0, false, create_array 1 1 1, []⟩

/-- A state of the minimal environment whose previous episode has ended. -/
def stEnded : EnvState := ⟨7, 0, true, create_array 1 1 1, []⟩

/-- Intermediate-reward configuration with `k = 3`, batch size 1. -/
def cfgInterm : EnvConfig := ⟨3, 1, 1, 10, true, [0, 1, 2]⟩

/-- A freshly reset state of the intermediate-reward environment at
`global_step = 2`. -/
def stInterm : EnvState := ⟨2, 0, false, create_array 3 1 1, []⟩

/-- Truncator context with one occurrence of target gate `1` on qubit `0`
(start time `0`) preceded in data order by gate `2` on the neighbor qubit
`1` with the later start time `100`. -/
def cfgT2 : TruncCfg := ⟨[⟨2, [1]⟩, ⟨1, [0]⟩], [100, 0], 1, [0], [1], []⟩

/-- Truncator context with two occurrences of target gate `1` on qubit `0`
at start times `0` and `1`. -/
def cfgT6 : TruncCfg := ⟨[⟨1, [0]⟩, ⟨1, [0]⟩], [0, 1], 1, [0], [], []⟩

/-
Helper lemmas.
-/

lemma truncIndex_lt (cfg : EnvConfig) (s : ℕ) (hk : 1 ≤ cfg.k) :
    truncIndex cfg s < cfg.k := by
  unfold truncIndex
  split
  · exact Nat.mod_lt _ hk
  · have h := min_le_right (s / cfg.stepsPerGate) (cfg.k - 1)
    omega

lemma truncIndex_mono (cfg : EnvConfig) (hInt : cfg.intermediate = false)
    {a b : ℕ} (hab : a ≤ b) : truncIndex cfg a ≤ truncIndex cfg b := by
  simp only [truncIndex, hInt, Bool.false_eq_true, if_false]
  exact min_le_min (Nat.div_le_div_right hab) le_rfl

lemma getD_set_self {α : Type} (l : List α) (n : ℕ) (a d : α) (h : n < l.length) :
    (l.set n a).getD n d = a := by
  rw [List.getD_eq_getElem?_getD, List.getElem?_set_self h]
  rfl

lemma create_array_length (k b n : ℕ) : (create_array k b n).length = k := by
  simp [create_array]

lemma create_array_getD (k b n i : ℕ) (h : i < k) :
    (create_array k b n).getD i []
      = List.replicate (i + 1) (List.replicate b (List.replicate n (0 : ℚ))) := by
  rw [List.getD_eq_getElem?_getD, create_array, List.getElem?_map]
  rw [List.getElem?_range h]
  rfl

lemma any_not_isFin_eq_false {l : List ScoreVal} (h : l.all ScoreVal.isFin = true) :
    (l.any fun v => !v.isFin) = false := by
  induction l with
  | nil => rfl
  | cons x xs ih =>
    simp only [List.all_cons, Bool.and_eq_true] at h
    simp [ih h.2, h.1]

lemma runSteps_succ (cfg : EnvConfig) (scores : List ScoreVal) (action : List (List ℚ))
    (n : ℕ) (st : EnvState) :
    runSteps cfg scores action (n + 1) st
      = (stepFn cfg scores action (runSteps cfg scores action n st)).2 := by
  induction n generalizing st with
  | zero => rfl
  | succ m ih =>
    show runSteps cfg scores action (m + 1) (stepFn cfg scores action st).2 = _
    rw [ih]
    rfl

/-
Branch characterizations of `stepFn`.
-/

lemma stepFn_ended (cfg : EnvConfig) (scores : List ScoreVal) (action : List (List ℚ))
    (st : EnvState) (hEnd : st.episodeEnded = true) :
    stepFn cfg scores action st
      = (.ok ⟨obsOf cfg (resetEnv cfg { st with stepTracker := st.stepTracker + 1 }),
              List.replicate cfg.batch (ScoreVal.fin 0), true, false⟩,
         resetEnv cfg { st with stepTracker := st.stepTracker + 1 }) := by
  simp only [stepFn, hEnd, if_true]

lemma stepFn_nonterminal (cfg : EnvConfig) (scores : List ScoreVal)
    (action : List (List ℚ)) (st : EnvState)
    (hEnd : st.episodeEnded = false)
    (hcl : ¬ cfg.k ≤ truncIndex cfg st.stepTracker)
    (hAct : action.length = cfg.batch)
    (hrow : st.inside < (st.paramValues.getD (truncIndex cfg st.stepTracker) []).length)
    (hlt : st.inside < truncIndex cfg st.stepTracker)
    (hInt : cfg.intermediate = false) :
    stepFn cfg scores action st
      = (.ok ⟨obsOf cfg
                { st with
                    stepTracker := st.stepTracker + 1
                    paramValues := st.paramValues.set (truncIndex cfg st.stepTracker)
                      ((st.paramValues.getD (truncIndex cfg st.stepTracker) []).set st.inside action)
                    inside := st.inside + 1 },
              List.replicate action.length (ScoreVal.fin 0), false, false⟩,
         { st with
             stepTracker := st.stepTracker + 1
             paramValues := st.paramValues.set (truncIndex cfg st.stepTracker)
               ((st.paramValues.getD (truncIndex cfg st.stepTracker) []).set st.inside action)
             inside := st.inside + 1 }) := by
  simp only [stepFn, hEnd, Bool.false_eq_true, if_false, if_neg hcl,
    if_neg (not_not_intro hAct), if_neg (Nat.not_le.mpr hrow), if_pos hlt,
    hInt]

lemma stepFn_terminal_ok (cfg : EnvConfig) (scores : List ScoreVal)
    (action : List (List ℚ)) (st : EnvState)
    (hEnd : st.episodeEnded = false)
    (hcl : ¬ cfg.k ≤ truncIndex cfg st.stepTracker)
    (hAct : action.length = cfg.batch)
    (hrow : st.inside < (st.paramValues.getD (truncIndex cfg st.stepTracker) []).length)
    (hge : ¬ st.inside < truncIndex cfg st.stepTracker)
    (hLen : scores.length = cfg.batch)
    (hFin : (scores.any fun v => !v.isFin) = false) :
    stepFn cfg scores action st
      = (.ok ⟨(if cfg.intermediate then Obs.rewardObs scores
               else obsOf cfg
                { st with
                    stepTracker := st.stepTracker + 1
                    paramValues := st.paramValues.set (truncIndex cfg st.stepTracker)
                      ((st.paramValues.getD (truncIndex cfg st.stepTracker) []).set st.inside action)
                    episodeEnded := true
                    rewardHistory := st.rewardHistory ++ [scores] }),
              scores.map (fun v =>
                match v with
                | .fin x => ScoreVal.fin (negLogReward x)
                | .nonfin => ScoreVal.nonfin),
              true, false⟩,
         { st with
             stepTracker := st.stepTracker + 1
             paramValues := st.paramValues.set (truncIndex cfg st.stepTracker)
               ((st.paramValues.getD (truncIndex cfg st.stepTracker) []).set st.inside action)
             episodeEnded := true
             rewardHistory := st.rewardHistory ++ [scores] }) := by
  simp only [stepFn, hEnd, Bool.false_eq_true, if_false, if_neg hcl,
    if_neg (not_not_intro hAct), if_neg (Nat.not_le.mpr hrow), if_neg hge,
    if_neg (not_not_intro hLen), hFin]

lemma stepFn_terminal_invalid (cfg : EnvConfig) (scores : List ScoreVal)
    (action : List (List ℚ)) (st : EnvState)
    (hEnd : st.episodeEnded = false)
    (hcl : ¬ cfg.k ≤ truncIndex cfg st.stepTracker)
    (hAct : action.length = cfg.batch)
    (hrow : st.inside < (st.paramValues.getD (truncIndex cfg st.stepTracker) []).length)
    (hge : ¬ st.inside < truncIndex cfg st.stepTracker)
    (hLen : scores.length = cfg.batch)
    (hNaN : (scores.any fun v => !v.isFin) = true) :
    stepFn cfg scores action st
      = (.err .invalidReward,
         { st with
             stepTracker := st.stepTracker + 1
             paramValues := st.paramValues.set (truncIndex cfg st.stepTracker)
               ((st.paramValues.getD (truncIndex cfg st.stepTracker) []).set st.inside action)
             episodeEnded := true
             rewardHistory := st.rewardHistory ++ [scores] }) := by
  simp only [stepFn, hEnd, Bool.false_eq_true, if_false, if_neg hcl,
    if_neg (not_not_intro hAct), if_neg (Nat.not_le.mpr hrow), if_neg hge,
    if_neg (not_not_intro hLen), hNaN, if_true]

/-
Claim C4.
-/

/-- C4 (confirmed): for every global step count, the truncation index equals
`global_step mod k` when intermediate rewards are enabled and
`min(global_step // steps_per_occurrence, k - 1)` otherwise; in particular
with `steps_per_occurrence = 10` and `k = 3`, at `global_step = 25` the
truncation index is `2`. -/
theorem C4_trunc_policy (cfg : EnvConfig) (s : ℕ) :
    (cfg.intermediate = true → truncIndex cfg s = s % cfg.k) ∧
    (cfg.intermediate = false → truncIndex cfg s = min (s / cfg.stepsPerGate) (cfg.k - 1)) ∧
    truncIndex cfgScenario 25 = 2 :=
  ⟨fun h => by simp [truncIndex, h], fun h => by simp [truncIndex, h], by decide⟩

/-- C4 witness: the curriculum formula and the concrete scenario value. -/
theorem C4_witness :
    truncIndex cfgScenario 25 = min (25 / 10) (3 - 1) ∧ truncIndex cfgScenario 25 = 2 :=
  ⟨(C4_trunc_policy cfgScenario 25).2.1 rfl, (C4_trunc_policy cfgScenario 25).2.2⟩

/-
Claim C9.
-/

/-- C9 (confirmed): for every `k ≥ 1` and every step count, the truncation
index computed by the selection policy is strictly below `k` in both modes,
and consequently no call to `step` can return with the truncated flag set:
the `trunc_index >= tgt_instruction_counts` clamp branch is unreachable. -/
theorem C9_clamp_unreachable (cfg : EnvConfig) (scores : List ScoreVal)
    (action : List (List ℚ)) (st : EnvState) (hk : 1 ≤ cfg.k) :
    truncIndex cfg st.stepTracker < cfg.k ∧
    (stepFn cfg scores action st).1.truncatedQ ≠ some true := by
  have hlt := truncIndex_lt cfg st.stepTracker hk
  refine ⟨hlt, ?_⟩
  simp only [stepFn]
  repeat' split
  all_goals simp_all [StepOutcome.truncatedQ]
  all_goals omega

/-- C9 witness: concrete instance of the unreachability statement. -/
theorem C9_witness :
    truncIndex cfgSingle 0 < cfgSingle.k ∧
    (stepFn cfgSingle [] [] stSingle).1.truncatedQ ≠ some true :=
  C9_clamp_unreachable cfgSingle [] [] stSingle (by decide)

/-
Claim C10.
-/

/-- C10 (confirmed): calling `step` when the previous episode has ended does
not raise for any action batch (the batch-size validation is never
reached): it resets the environment (fresh zero action buffer, intra-step
counter `0`, episode-ended flag cleared), returns the post-reset
observation, a zero reward vector of length `batch_size`,
`terminated = True` and `truncated = False`, and still increments the
global step counter. -/
theorem C10_auto_reset (cfg : EnvConfig) (scores : List ScoreVal)
    (action : List (List ℚ)) (st : EnvState) (hEnd : st.episodeEnded = true) :
    stepFn cfg scores action st
      = (.ok ⟨obsOf cfg (resetEnv cfg { st with stepTracker := st.stepTracker + 1 }),
              List.replicate cfg.batch (ScoreVal.fin 0), true, false⟩,
         resetEnv cfg { st with stepTracker := st.stepTracker + 1 }) ∧
    (resetEnv cfg { st with stepTracker := st.stepTracker + 1 }).stepTracker
      = st.stepTracker + 1 ∧
    (resetEnv cfg { st with stepTracker := st.stepTracker + 1 }).paramValues
      = create_array cfg.k cfg.batch cfg.nActions ∧
    (resetEnv cfg { st with stepTracker := st.stepTracker + 1 }).episodeEnded = false ∧
    (resetEnv cfg { st with stepTracker := st.stepTracker + 1 }).inside = 0 := by
  refine ⟨stepFn_ended cfg scores action st hEnd, ?_, ?_, ?_, ?_⟩ <;>
    simp [resetEnv, baseReset]

/-- C10 witness: an ended episode stepped with an action batch of the wrong
size (empty) still returns normally. -/
theorem C10_witness :
    stepFn cfgSingle [] [] stEnded
      = (.ok ⟨obsOf cfgSingle
                (resetEnv cfgSingle { stEnded with stepTracker := stEnded.stepTracker + 1 }),
              List.replicate cfgSingle.batch (ScoreVal.fin 0), true, false⟩,
         resetEnv cfgSingle { stEnded with stepTracker := stEnded.stepTracker + 1 }) :=
  (C10_auto_reset cfgSingle [] [] stEnded rfl).1

/-
Claim C8.
-/

/-- C8 counterexample: on a context whose sole unassigned parameter is `1`,
the call with kwargs `{1: 5, 2: 7}` raises for parameter `2`, but the
context is *not* left unchanged — the assignment `1 ↦ 5` performed before
the failure is retained. -/
theorem C8_counterexample :
    (setCircuitContextParams ⟨[1], []⟩ [(1, 5), (2, 7)]).1 = some 2 ∧
    (setCircuitContextParams ⟨[1], []⟩ [(1, 5), (2, 7)]).2 ≠ (⟨[1], []⟩ : CircuitCtx) := by
  decide

/-- C8 (corrected): if a keyword parameter is not present in the
(successively updated) circuit context, the call raises the
unresolved-parameter error at the first such parameter — but the in-place
assignments of the preceding keyword parameters are retained; the context
is unchanged only when the offending parameter is the first one processed. -/
theorem C8_amended_prefix_retained (ctx ctxPre : CircuitCtx) (pre : List (ℕ × ℤ))
    (p : ℕ) (v : ℤ) (rest : List (ℕ × ℤ))
    (hpre : setCircuitContextParams ctx pre = (none, ctxPre))
    (hp : hasParameter ctxPre p = false) :
    setCircuitContextParams ctx (pre ++ (p, v) :: rest) = (some p, ctxPre) := by
  induction pre generalizing ctx with
  | nil =>
    simp only [setCircuitContextParams, Prod.mk.injEq] at hpre
    obtain ⟨-, rfl⟩ := hpre
    simp [setCircuitContextParams, hp]
  | cons hd tl ih =>
    obtain ⟨q, w⟩ := hd
    by_cases hq : hasParameter ctx q
    · simp only [setCircuitContextParams, hq, if_true] at hpre
      simpa [setCircuitContextParams, hq] using ih (assignParameter ctx q w) hpre
    · simp [setCircuitContextParams, hq] at hpre

/-- C8 witness: the amended statement at the counterexample input. -/
theorem C8_witness :
    setCircuitContextParams ⟨[1], []⟩ ([(1, 5)] ++ (2, 7) :: [])
      = (some 2, ⟨[], [(1, 5)]⟩) :=
  C8_amended_prefix_retained ⟨[1], []⟩ ⟨[], [(1, 5)]⟩ [(1, 5)] 2 7 [] rfl rfl

/-
Claim C1.
-/

/-- C1 counterexample: from a freshly reset single-occurrence environment,
a terminal step whose score vector contains a NaN/Inf entry raises the
fatal invalid-reward error, yet the episode-ended flag — `false` before
the call — is `true` afterwards: the episode state is not the same after
the failed call as before it. -/
theorem C1_counterexample :
    stSingle.episodeEnded = false ∧
    (stepFn cfgSingle [ScoreVal.nonfin] [[0]] stSingle).1 = .err .invalidReward ∧
    ((stepFn cfgSingle [ScoreVal.nonfin] [[0]] stSingle).2).episodeEnded = true :=
  ⟨rfl, rfl, rfl⟩

/-- C1 (corrected): a NaN/Inf entry in the terminal score vector does raise
the fatal invalid-reward error, but the episode *does* transition to
terminated: the episode-ended flag is set to `True` (and the step counter
incremented and the raw score vector appended to the reward history)
before the validation runs, so the failed call leaves the episode marked
ended rather than unchanged. -/
theorem C1_invalid_reward_mutates (cfg : EnvConfig) (scores : List ScoreVal)
    (action : List (List ℚ)) (st : EnvState)
    (hEnd : st.episodeEnded = false)
    (hcl : ¬ cfg.k ≤ truncIndex cfg st.stepTracker)
    (hAct : action.length = cfg.batch)
    (hrow : st.inside < (st.paramValues.getD (truncIndex cfg st.stepTracker) []).length)
    (hge : ¬ st.inside < truncIndex cfg st.stepTracker)
    (hLen : scores.length = cfg.batch)
    (hNaN : (scores.any fun v => !v.isFin) = true) :
    (stepFn cfg scores action st).1 = .err .invalidReward ∧
    ((stepFn cfg scores action st).2).episodeEnded = true ∧
    ((stepFn cfg scores action st).2).stepTracker = st.stepTracker + 1 ∧
    ((stepFn cfg scores action st).2).rewardHistory = st.rewardHistory ++ [scores] := by
  rw [stepFn_terminal_invalid cfg scores action st hEnd hcl hAct hrow hge hLen hNaN]
  exact ⟨rfl, rfl, rfl, rfl⟩

/-- C1 witness: the amended statement at the counterexample input. -/
theorem C1_witness :
    (stepFn cfgSingle [ScoreVal.nonfin] [[0]] stSingle).1 = .err .invalidReward ∧
    ((stepFn cfgSingle [ScoreVal.nonfin] [[0]] stSingle).2).episodeEnded = true :=
  have H := C1_invalid_reward_mutates cfgSingle [ScoreVal.nonfin] [[0]] stSingle rfl
    (by decide) rfl (by decide) (by decide) rfl rfl
  ⟨H.1, H.2.1⟩

/-
Claim C5.
-/

/-- C5 (confirmed): the terminal-step reward is the elementwise map
`x ↦ -ln(1 - clip(x, 0, 1 - 1e-6))` of the collaborator's score vector;
this map is strictly increasing on `[0, 1 - ε]`, sends score `0` to reward
`0`, and for every score the argument of the logarithm stays strictly
positive (the reward is finite) and the reward is non-negative. -/
theorem C5_reward_transform (cfg : EnvConfig) (action : List (List ℚ))
    (st : EnvState) (scoresR : List ℝ)
    (hEnd : st.episodeEnded = false)
    (hcl : ¬ cfg.k ≤ truncIndex cfg st.stepTracker)
    (hAct : action.length = cfg.batch)
    (hrow : st.inside < (st.paramValues.getD (truncIndex cfg st.stepTracker) []).length)
    (hge : ¬ st.inside < truncIndex cfg st.stepTracker)
    (hLen : scoresR.length = cfg.batch) :
    (stepFn cfg (scoresR.map ScoreVal.fin) action st).1.rewardQ
      = some (scoresR.map fun x => ScoreVal.fin (negLogReward x)) ∧
    (∀ a b : ℝ, 0 ≤ a → a < b → b ≤ 1 - epsPrec → negLogReward a < negLogReward b) ∧
    negLogReward 0 = 0 ∧
    (∀ x : ℝ, 0 < 1 - clipScore x ∧ 0 ≤ negLogReward x) := by
  have heps : (0 : ℝ) < epsPrec := by norm_num [epsPrec]
  have heps1 : epsPrec ≤ (1 : ℝ) := by norm_num [epsPrec]
  have hfin : ((scoresR.map ScoreVal.fin).any fun v => !v.isFin) = false := by
    induction scoresR with
    | nil => rfl
    | cons x xs ih => simp [ScoreVal.isFin, ih]
  have hLen2 : (scoresR.map ScoreVal.fin).length = cfg.batch := by simpa using hLen
  refine ⟨?_, ?_, ?_, ?_⟩
  · rw [stepFn_terminal_ok cfg (scoresR.map ScoreVal.fin) action st hEnd hcl hAct
      hrow hge hLen2 hfin]
    simp only [StepOutcome.rewardQ, List.map_map]
    rfl
  · intro a b ha hab hb
    have hca : clipScore a = a := by
      unfold clipScore
      rw [max_eq_left ha, min_eq_left (by linarith)]
    have hcb : clipScore b = b := by
      unfold clipScore
      rw [max_eq_left (by linarith), min_eq_left hb]
    unfold negLogReward
    rw [hca, hcb]
    have h1 : (0 : ℝ) < 1 - b := by linarith
    have h2 : 1 - b < 1 - a := by linarith
    have := Real.log_lt_log h1 h2
    linarith
  · have hc0 : clipScore 0 = 0 := by
      unfold clipScore
      rw [max_eq_left le_rfl, min_eq_left (by linarith)]
    unfold negLogReward
    rw [hc0]
    simp [Real.log_one]
  · intro x
    have hle : clipScore x ≤ 1 - epsPrec := min_le_right _ _
    have hge0 : (0 : ℝ) ≤ clipScore x := le_min (le_max_right x 0) (by linarith)
    refine ⟨by linarith, ?_⟩
    unfold negLogReward
    have hlog : Real.log (1 - clipScore x) ≤ 0 :=
      Real.log_nonpos (by linarith) (by linarith)
    linarith

/-- C5 witness: concrete terminal reward and the zero-score value. -/
theorem C5_witness :
    (stepFn cfgSingle ([(1 : ℝ)/2].map ScoreVal.fin) [[0]] stSingle).1.rewardQ
      = some [ScoreVal.fin (negLogReward (1/2))] ∧
    negLogReward 0 = 0 :=
  have H := C5_reward_transform cfgSingle [[0]] stSingle [1/2] rfl (by decide) rfl
    (by decide) (by decide) rfl
  ⟨H.1, H.2.2.1⟩

/-
Claims C2 and C6: truncator lemmas.
-/

lemma addQubit_fields (cfg : TruncCfg) (st : TruncState) (q : ℕ) :
    (addQubit cfg st q).counts = st.counts ∧
    (addQubit cfg st q).baseline = st.baseline ∧
    (addQubit cfg st q).custom = st.custom ∧
    (addQubit cfg st q).admitted = st.admitted := by
  unfold addQubit
  split <;> exact ⟨rfl, rfl, rfl, rfl⟩

lemma foldl_addQubit_fields (cfg : TruncCfg) :
    ∀ (l : List ℕ) (st : TruncState),
      (l.foldl (addQubit cfg) st).counts = st.counts ∧
      (l.foldl (addQubit cfg) st).baseline = st.baseline ∧
      (l.foldl (addQubit cfg) st).custom = st.custom ∧
      (l.foldl (addQubit cfg) st).admitted = st.admitted := by
  intro l
  induction l with
  | nil => intro st; exact ⟨rfl, rfl, rfl, rfl⟩
  | cons q l ih =>
    intro st
    rw [List.foldl_cons]
    have h1 := ih (addQubit cfg st q)
    have h2 := addQubit_fields cfg st q
    exact ⟨h1.1.trans h2.1, h1.2.1.trans h2.2.1, h1.2.2.1.trans h2.2.2.1,
      h1.2.2.2.trans h2.2.2.2⟩

lemma processInstr_admitted_sound (cfg : TruncCfg) (i : ℕ) (st : TruncState)
    (p : ℕ × Instr)
    (h : ∀ x ∈ st.admitted,
      involvesTargetQubits cfg x.2.2 = true ∧ (x.1 ≤ i ∨ x.2.1 ≤ timingAt cfg i)) :
    ∀ x ∈ (processInstr cfg i st p).admitted,
      involvesTargetQubits cfg x.2.2 = true ∧ (x.1 ≤ i ∨ x.2.1 ≤ timingAt cfg i) := by
  intro x hx
  unfold processInstr at hx
  by_cases hc : ((decide (st.counts ≤ i) || decide (p.1 ≤ timingAt cfg i)) &&
      involvesTargetQubits cfg p.2) = true
  · rw [if_pos hc] at hx
    simp only [Bool.and_eq_true, Bool.or_eq_true, decide_eq_true_eq] at hc
    have hf := foldl_addQubit_fields cfg
      (p.2.qubits.filter fun q => !cfg.tgtQubits.contains q) st
    split at hx <;>
    · simp only [hf.2.2.2, hf.1, List.mem_append, List.mem_singleton] at hx
      rcases hx with hx | hx
      · exact h x hx
      · subst hx
        exact ⟨hc.2, hc.1⟩
  · rw [if_neg hc] at hx
    exact h x hx

/-- C2 counterexample: in the context `cfgT2`, occurrence `0`'s target
instruction starts at time `0`, yet the data-earlier instruction on the
neighbor qubit with start time `100` is admitted into truncation `0`
(because fewer than `i + 1` target occurrences had been seen), violating
the claimed bound `start time ≤ start time of occurrence i`. -/
theorem C2_counterexample :
    (0, 100, (⟨2, [1]⟩ : Instr)) ∈ (truncRun cfgT2 0).admitted ∧
    timingAt cfgT2 0 = 0 ∧ ¬ (100 : ℕ) ≤ timingAt cfgT2 0 := by
  decide

/-- C2 (corrected): every instruction admitted into truncation `i` touches
the target register or a precomputed nearest-neighbor qubit, and at the
moment of its admission either at most `i` target occurrences had been
admitted before it (`counts ≤ i`) or its start time is at most the start
time of occurrence `i`'s target instruction.  (The unconditional bound
`start time ≤ start time of occurrence i` claimed by the spec does not
hold: the `counts ≤ i` disjunct admits data-earlier instructions with
later start times.) -/
theorem C2_admitted_sound (cfg : TruncCfg) (i : ℕ) :
    ∀ x ∈ (truncRun cfg i).admitted,
      involvesTargetQubits cfg x.2.2 = true ∧ (x.1 ≤ i ∨ x.2.1 ≤ timingAt cfg i) := by
  have aux : ∀ (l : List (ℕ × Instr)) (st : TruncState),
      (∀ x ∈ st.admitted,
        involvesTargetQubits cfg x.2.2 = true ∧ (x.1 ≤ i ∨ x.2.1 ≤ timingAt cfg i)) →
      ∀ x ∈ (l.foldl (processInstr cfg i) st).admitted,
        involvesTargetQubits cfg x.2.2 = true ∧ (x.1 ≤ i ∨ x.2.1 ≤ timingAt cfg i) := by
    intro l
    induction l with
    | nil => intro st h; exact h
    | cons p l ih =>
      intro st h
      rw [List.foldl_cons]
      exact ih (processInstr cfg i st p) (processInstr_admitted_sound cfg i st p h)
  exact aux (cfg.opStartTimes.zip cfg.data) (initTruncState cfg)
    (by intro x hx; simp [initTruncState] at hx)

/-- C2 witness: the soundness statement at the counterexample entry. -/
theorem C2_witness :
    involvesTargetQubits cfgT2 (⟨2, [1]⟩ : Instr) = true ∧
    ((0 : ℕ) ≤ 0 ∨ (100 : ℕ) ≤ timingAt cfgT2 0) :=
  C2_admitted_sound cfgT2 0 (0, 100, ⟨2, [1]⟩) (by decide)

lemma processInstr_maps (cfg : TruncCfg) (i : ℕ) (st : TruncState) (p : ℕ × Instr)
    (hb : st.baseline = st.admitted.map (baseOf cfg))
    (hc : st.custom = st.admitted.map (custOf cfg)) :
    (processInstr cfg i st p).baseline
      = (processInstr cfg i st p).admitted.map (baseOf cfg) ∧
    (processInstr cfg i st p).custom
      = (processInstr cfg i st p).admitted.map (custOf cfg) := by
  unfold processInstr
  by_cases hg : ((decide (st.counts ≤ i) || decide (p.1 ≤ timingAt cfg i)) &&
      involvesTargetQubits cfg p.2) = true
  · rw [if_pos hg]
    have hf := foldl_addQubit_fields cfg
      (p.2.qubits.filter fun q => !cfg.tgtQubits.contains q) st
    by_cases hT : p.2 = targetInstr cfg
    · rw [if_pos hT]
      constructor
      · simp only [hf.2.1, hf.2.2.2, hf.1, hb, List.map_append]
        rfl
      · simp only [hf.2.2.1, hf.2.2.2, hf.1, hc, List.map_append]
        simp [custOf, hT]
    · rw [if_neg hT]
      constructor
      · simp only [hf.2.1, hf.2.2.2, hf.1, hb, List.map_append]
        rfl
      · simp only [hf.2.2.1, hf.2.2.2, hf.1, hc, List.map_append]
        simp [custOf, baseOf, hT]
  · rw [if_neg hg]
    exact ⟨hb, hc⟩

lemma truncRun_maps (cfg : TruncCfg) (i : ℕ) :
    (truncRun cfg i).baseline = (truncRun cfg i).admitted.map (baseOf cfg) ∧
    (truncRun cfg i).custom = (truncRun cfg i).admitted.map (custOf cfg) := by
  have aux : ∀ (l : List (ℕ × Instr)) (st : TruncState),
      st.baseline = st.admitted.map (baseOf cfg) →
      st.custom = st.admitted.map (custOf cfg) →
      (l.foldl (processInstr cfg i) st).baseline
        = (l.foldl (processInstr cfg i) st).admitted.map (baseOf cfg) ∧
      (l.foldl (processInstr cfg i) st).custom
        = (l.foldl (processInstr cfg i) st).admitted.map (custOf cfg) := by
    intro l
    induction l with
    | nil => intro st hb hc; exact ⟨hb, hc⟩
    | cons p l ih =>
      intro st hb hc
      rw [List.foldl_cons]
      have h := processInstr_maps cfg i st p hb hc
      exact ih (processInstr cfg i st p) h.1 h.2
  exact aux (cfg.opStartTimes.zip cfg.data) (initTruncState cfg) rfl rfl

/-- C6 counterexample: in the two-occurrence context `cfgT6`, the baseline
and custom circuits of truncation `1` differ at the site of occurrence `0`
as well (baseline keeps the verbatim target, custom holds the callback
insertion for parameter vector `0`), so removing occurrence `1`'s site
(the last position) still leaves differing circuits — contradicting
"differing only at the site of occurrence i's target instruction". -/
theorem C6_counterexample :
    (truncRun cfgT6 1).baseline
      = [CInstr.gate 1 [RQubit.tgt 0], CInstr.gate 1 [RQubit.tgt 0]] ∧
    (truncRun cfgT6 1).custom = [CInstr.parametrized 0, CInstr.parametrized 1] ∧
    (truncRun cfgT6 1).baseline.take 1 ≠ (truncRun cfgT6 1).custom.take 1 := by
  decide

/-- C6 (corrected): for every occurrence `i`, baseline and custom circuits
carry the same qubit layout (a single shared layout object per occurrence)
and agree at every admitted non-target instruction; they differ exactly at
the sites of *all* admitted occurrences of the target instruction (not
only occurrence `i`'s), where the baseline keeps the verbatim remapped
target instruction and the custom circuit holds the callback-inserted
parametrized sub-program for the corresponding occurrence count. -/
theorem C6_target_replacement (cfg : TruncCfg) (i : ℕ) :
    (truncRun cfg i).baseline = (truncRun cfg i).admitted.map (baseOf cfg) ∧
    (truncRun cfg i).custom = (truncRun cfg i).admitted.map (custOf cfg) ∧
    ∀ j : ℕ, ∀ x : ℕ × ℕ × Instr, (truncRun cfg i).admitted[j]? = some x →
      (x.2.2 ≠ targetInstr cfg →
        (truncRun cfg i).baseline[j]? = (truncRun cfg i).custom[j]?) ∧
      (x.2.2 = targetInstr cfg →
        (truncRun cfg i).baseline[j]? = some (baseOf cfg x) ∧
        (truncRun cfg i).custom[j]? = some (CInstr.parametrized x.1)) := by
  obtain ⟨hb, hc⟩ := truncRun_maps cfg i
  refine ⟨hb, hc, ?_⟩
  intro j x hx
  constructor
  · intro hne
    rw [hb, hc, List.getElem?_map, List.getElem?_map, hx]
    simp [custOf, baseOf, hne]
  · intro he
    rw [hb, hc, List.getElem?_map, List.getElem?_map, hx]
    constructor
    · rfl
    · simp [custOf, he]

/-- C6 witness: the replacement statement at occurrence `0`'s site inside
truncation `1` of the two-occurrence context. -/
theorem C6_witness :
    (truncRun cfgT6 1).baseline[0]? = some (baseOf cfgT6 (0, 0, ⟨1, [0]⟩)) ∧
    (truncRun cfgT6 1).custom[0]? = some (CInstr.parametrized 0) :=
  ((C6_target_replacement cfgT6 1).2.2 0 (0, 0, ⟨1, [0]⟩) (by decide)).2 (by decide)

/-
Claim C7: action-buffer lemmas.
-/

lemma take_succ_set {α : Type} :
    ∀ (l : List α) (n : ℕ) (b : α), n < l.length →
      (l.set n b).take (n + 1) = l.take n ++ [b] := by
  intro l n
  induction n generalizing l with
  | zero =>
    intro b h
    cases l with
    | nil => simp at h
    | cons x xs => rfl
  | succ m ih =>
    intro b h
    cases l with
    | nil => simp at h
    | cons x xs =>
      simp only [List.set_cons_succ, List.take_succ_cons, List.cons_append]
      rw [ih xs b (by simpa using h)]

lemma writeRows_eq :
    ∀ (blocks level : List (List (List ℚ))) (start : ℕ),
      level.length = start + blocks.length →
      writeRows level start blocks = level.take start ++ blocks := by
  intro blocks
  induction blocks with
  | nil =>
    intro level start h
    simp only [List.length_nil, Nat.add_zero] at h
    simp [writeRows, List.take_of_length_le (le_of_eq h)]
  | cons b bs ih =>
    intro level start h
    simp only [List.length_cons] at h
    simp only [writeRows]
    rw [ih (level.set start b) (start + 1) (by rw [List.length_set]; omega)]
    rw [take_succ_set level start b (by omega)]
    simp

lemma reshapeRows_length (r c : ℕ) (l : List ℚ) : (reshapeRows r c l).length = r := by
  induction r generalizing l with
  | zero => rfl
  | succ m ih => simp [reshapeRows, ih]

lemma reshapeRows_rows :
    ∀ (r c : ℕ) (l : List ℚ), l.length = r * c →
      ∀ row ∈ reshapeRows r c l, row.length = c := by
  intro r
  induction r with
  | zero => intro c l h row hrow; simp [reshapeRows] at hrow
  | succ m ih =>
    intro c l h row hrow
    simp only [reshapeRows, List.mem_cons] at hrow
    rcases hrow with hrow | hrow
    · subst hrow
      simp only [List.length_take]
      have : c ≤ l.length := by
        rw [h, Nat.succ_mul]
        omega
      omega
    · exact ih c (l.drop c) (by simp [h, Nat.succ_mul]) row hrow

lemma reshapeRows_flatten :
    ∀ (r c : ℕ) (l : List ℚ), l.length = r * c →
      (reshapeRows r c l).flatten = l := by
  intro r
  induction r with
  | zero =>
    intro c l h
    simp only [Nat.zero_mul] at h
    simp [reshapeRows, List.length_eq_zero.mp h]
  | succ m ih =>
    intro c l h
    simp only [reshapeRows, List.flatten_cons]
    rw [ih c (l.drop c) (by simp [h, Nat.succ_mul])]
    exact List.take_append_drop c l

lemma flatten_map_flatten {α : Type} :
    ∀ L : List (List (List α)), (L.map List.flatten).flatten = L.flatten.flatten := by
  intro L
  induction L with
  | nil => rfl
  | cons l L ih => simp [ih]

lemma flatten_length_of_shape :
    ∀ (b : List (List ℚ)) (B N : ℕ), b.length = B → (∀ row ∈ b, row.length = N) →
      b.flatten.length = B * N := by
  intro b
  induction b with
  | nil =>
    intro B N hB hrows
    simp only [List.length_nil] at hB
    simp [← hB]
  | cons r rs ih =>
    intro B N hB hrows
    simp only [List.length_cons] at hB
    simp only [List.flatten_cons, List.length_append]
    rw [hrows r (by simp), ih rs.length N rfl (fun row h => hrows row (by simp [h]))]
    subst hB
    rw [Nat.succ_mul]
    omega

lemma flatten_flatten_length :
    ∀ (blocks : List (List (List ℚ))) (m : ℕ),
      (∀ b ∈ blocks, b.flatten.length = m) →
      blocks.flatten.flatten.length = blocks.length * m := by
  intro blocks
  induction blocks with
  | nil => intro m h; simp
  | cons b bs ih =>
    intro m h
    simp only [List.flatten_cons, List.flatten_append, List.length_append,
      List.length_cons]
    rw [h b (by simp), ih m (fun x hx => h x (by simp [hx]))]
    rw [Nat.succ_mul]
    omega

/-- C7 (confirmed): after writing the `i + 1` action blocks into rows
`0 .. i` of truncation level `i` of the freshly allocated action buffer,
the level holds exactly those blocks, and flattening it produces a
`(batch_size, (i + 1) * action_dim)` array whose row-major data is exactly
the concatenation of the written blocks — no entry is lost or reordered. -/
theorem C7_flatten_roundtrip (k batchsize nActions i : ℕ)
    (blocks : List (List (List ℚ)))
    (hb : 1 ≤ batchsize) (hn : 1 ≤ nActions) (hik : i < k)
    (hlen : blocks.length = i + 1)
    (hshape : ∀ b ∈ blocks, b.length = batchsize ∧ ∀ row ∈ b, row.length = nActions) :
    writeRows ((create_array k batchsize nActions).getD i []) 0 blocks = blocks ∧
    (flattenLevel blocks batchsize ((i + 1) * nActions)).length = batchsize ∧
    (∀ row ∈ flattenLevel blocks batchsize ((i + 1) * nActions),
      row.length = (i + 1) * nActions) ∧
    (flattenLevel blocks batchsize ((i + 1) * nActions)).flatten
      = (blocks.map List.flatten).flatten := by
  have hdata : (vstackRows blocks).flatten.length = batchsize * ((i + 1) * nActions) := by
    have h1 : ∀ b ∈ blocks, b.flatten.length = batchsize * nActions := fun b hb2 =>
      flatten_length_of_shape b batchsize nActions (hshape b hb2).1 (hshape b hb2).2
    have h2 : blocks.flatten.flatten.length = blocks.length * (batchsize * nActions) :=
      flatten_flatten_length blocks (batchsize * nActions) h1
    unfold vstackRows
    rw [h2, hlen]
    ring
  refine ⟨?_, ?_, ?_, ?_⟩
  · rw [create_array_getD k batchsize nActions i hik]
    have h := writeRows_eq blocks
      (List.replicate (i + 1) (List.replicate batchsize (List.replicate nActions 0))) 0
      (by simp [hlen])
    simpa using h
  · exact reshapeRows_length batchsize ((i + 1) * nActions) (vstackRows blocks).flatten
  · exact reshapeRows_rows batchsize ((i + 1) * nActions) (vstackRows blocks).flatten hdata
  · show (reshapeRows batchsize ((i + 1) * nActions) (vstackRows blocks).flatten).flatten = _
    rw [reshapeRows_flatten batchsize ((i + 1) * nActions) (vstackRows blocks).flatten hdata]
    exact (flatten_map_flatten blocks).symm

/-- C7 witness: the round trip on a concrete `2 × 1` batch over two rows of
level `1`. -/
theorem C7_witness :
    writeRows ((create_array 2 2 1).getD 1 []) 0 [[[1], [2]], [[3], [4]]]
      = [[[1], [2]], [[3], [4]]] ∧
    (flattenLevel [[[1], [2]], [[3], [4]]] 2 2).flatten
      = ([[[1], [2]], [[3], [4]]].map List.flatten).flatten :=
  have H := C7_flatten_roundtrip 2 2 1 1 [[[1], [2]], [[3], [4]]]
    (by norm_num) (by norm_num) (by norm_num) rfl (by decide)
  ⟨H.1, H.2.2.2⟩

/-
Claim C3.
-/

lemma C3_trunc_const (cfg : EnvConfig) (s0 : ℕ) (hInt : cfg.intermediate = false)
    (hConst : truncIndex cfg (s0 + truncIndex cfg s0) = truncIndex cfg s0) :
    ∀ j ≤ truncIndex cfg s0, truncIndex cfg (s0 + j) = truncIndex cfg s0 := by
  intro j hj
  have h1 : truncIndex cfg s0 ≤ truncIndex cfg (s0 + j) :=
    truncIndex_mono cfg hInt (Nat.le_add_right s0 j)
  have h2 : truncIndex cfg (s0 + j) ≤ truncIndex cfg (s0 + truncIndex cfg s0) :=
    truncIndex_mono cfg hInt (by omega)
  omega

lemma C3_state_inv (cfg : EnvConfig) (scores : List ScoreVal) (action : List (List ℚ))
    (st0 : EnvState)
    (hInt : cfg.intermediate = false) (hk : 1 ≤ cfg.k)
    (hEnd : st0.episodeEnded = false) (hIns : st0.inside = 0)
    (hBuf : st0.paramValues = create_array cfg.k cfg.batch cfg.nActions)
    (hAct : action.length = cfg.batch)
    (hConst : truncIndex cfg (st0.stepTracker + truncIndex cfg st0.stepTracker)
      = truncIndex cfg st0.stepTracker) :
    ∀ j, j ≤ truncIndex cfg st0.stepTracker →
      (runSteps cfg scores action j st0).stepTracker = st0.stepTracker + j ∧
      (runSteps cfg scores action j st0).inside = j ∧
      (runSteps cfg scores action j st0).episodeEnded = false ∧
      (runSteps cfg scores action j st0).paramValues.length = cfg.k ∧
      ((runSteps cfg scores action j st0).paramValues.getD
          (truncIndex cfg st0.stepTracker) []).length
        = truncIndex cfg st0.stepTracker + 1 := by
  have hT := truncIndex_lt cfg st0.stepTracker hk
  have htr := C3_trunc_const cfg st0.stepTracker hInt hConst
  intro j
  induction j with
  | zero =>
    intro _
    refine ⟨by simp [runSteps], by simp [runSteps, hIns], by simp [runSteps, hEnd],
      by simp [runSteps, hBuf, create_array_length], ?_⟩
    show (st0.paramValues.getD (truncIndex cfg st0.stepTracker) []).length = _
    rw [hBuf, create_array_getD cfg.k cfg.batch cfg.nActions _ hT]
    simp
  | succ j ih =>
    intro hj1
    have inv := ih (by omega)
    obtain ⟨h1, h2, h3, h4, h5⟩ := inv
    have htj : truncIndex cfg ((runSteps cfg scores action j st0).stepTracker)
        = truncIndex cfg st0.stepTracker := by
      rw [h1]
      exact htr j (by omega)
    rw [runSteps_succ]
    rw [stepFn_nonterminal cfg scores action (runSteps cfg scores action j st0) h3
      (by rw [htj]; omega) hAct (by rw [htj, h5, h2]; omega) (by rw [htj, h2]; omega) hInt]
    refine ⟨by simp [h1]; omega, by simp [h2], by simp [h3], by simpa using h4, ?_⟩
    show ((((runSteps cfg scores action j st0).paramValues).set
        (truncIndex cfg (runSteps cfg scores action j st0).stepTracker) _).getD
        (truncIndex cfg st0.stepTracker) []).length = _
    rw [htj, getD_set_self _ _ _ _ (by rw [h4]; exact hT), List.length_set, h5]

/-- C3 counterexample: intermediate-reward mode, `k = 3`, starting from a
freshly reset environment at `global_step = 2`.  The truncation index at
reset is `2`, so the claim requires three calls, the first two returning
`terminated = False`.  In fact the truncation index changes between calls
(it is derived from the incrementing step counter), and the second call
raises an `IndexError` writing row `1` of the one-row truncation level
`0`. -/
theorem C3_counterexample :
    truncIndex cfgInterm stInterm.stepTracker = 2 ∧
    (stepFn cfgInterm [ScoreVal.fin 0] [[0]] stInterm).1.terminatedQ = some false ∧
    (stepFn cfgInterm [ScoreVal.fin 0] [[0]]
      ((stepFn cfgInterm [ScoreVal.fin 0] [[0]] stInterm).2)).1
      = .err (.rowIndexOOB 1 1) :=
  ⟨rfl, rfl, rfl⟩

/-- C3 (corrected): in curriculum mode, for an episode over which the
truncation index stays constant (its value at the first call equals its
value `truncation_index` steps later — e.g. the whole episode lies inside
one `steps_per_occurrence` window), exactly `truncation_index + 1` calls
to `step` with correctly-sized action batches and a valid terminal score
vector reach `terminated = True`, and every call before the last returns
`terminated = False`.  In intermediate-reward mode (and in curriculum mode
across a step-budget boundary) the property fails, because the truncation
index is re-derived from the incremented global step counter at every
call. -/
theorem C3_episode_length (cfg : EnvConfig) (scores : List ScoreVal)
    (action : List (List ℚ)) (st0 : EnvState)
    (hInt : cfg.intermediate = false) (hk : 1 ≤ cfg.k)
    (hEnd : st0.episodeEnded = false) (hIns : st0.inside = 0)
    (hBuf : st0.paramValues = create_array cfg.k cfg.batch cfg.nActions)
    (hAct : action.length = cfg.batch)
    (hSLen : scores.length = cfg.batch)
    (hSFin : scores.all ScoreVal.isFin = true)
    (hConst : truncIndex cfg (st0.stepTracker + truncIndex cfg st0.stepTracker)
      = truncIndex cfg st0.stepTracker) :
    (∀ j, j < truncIndex cfg st0.stepTracker →
      (stepFn cfg scores action (runSteps cfg scores action j st0)).1.terminatedQ
        = some false) ∧
    (stepFn cfg scores action
        (runSteps cfg scores action (truncIndex cfg st0.stepTracker) st0)).1.terminatedQ
      = some true := by
  have hT := truncIndex_lt cfg st0.stepTracker hk
  have htr := C3_trunc_const cfg st0.stepTracker hInt hConst
  have inv := C3_state_inv cfg scores action st0 hInt hk hEnd hIns hBuf hAct hConst
  constructor
  · intro j hj
    obtain ⟨h1, h2, h3, h4, h5⟩ := inv j (by omega)
    have htj : truncIndex cfg ((runSteps cfg scores action j st0).stepTracker)
        = truncIndex cfg st0.stepTracker := by
      rw [h1]
      exact htr j (by omega)
    rw [stepFn_nonterminal cfg scores action (runSteps cfg scores action j st0) h3
      (by rw [htj]; omega) hAct (by rw [htj, h5, h2]; omega) (by rw [htj, h2]; omega) hInt]
    rfl
  · obtain ⟨h1, h2, h3, h4, h5⟩ := inv (truncIndex cfg st0.stepTracker) le_rfl
    have htj : truncIndex cfg ((runSteps cfg scores action
        (truncIndex cfg st0.stepTracker) st0).stepTracker)
        = truncIndex cfg st0.stepTracker := by
      rw [h1]
      exact htr _ le_rfl
    rw [stepFn_terminal_ok cfg scores action _ h3
      (by rw [htj]; omega) hAct (by rw [htj, h5, h2]; omega) (by rw [htj, h2]; omega)
      hSLen (any_not_isFin_eq_false hSFin)]
    rfl

/-- C3 witness: the spec scenario (`k = 3`, `batch_size = 4`,
`action_dim = 2`, `steps_per_occurrence = 10`, curriculum mode) at
`global_step = 25`: the first call is non-terminal, the third call is
terminal. -/
theorem C3_witness :
    (stepFn cfgScenario (List.replicate 4 (ScoreVal.fin 0)) act42
      (runSteps cfgScenario (List.replicate 4 (ScoreVal.fin 0)) act42 0 st25)).1.terminatedQ
      = some false ∧
    (stepFn cfgScenario (List.replicate 4 (ScoreVal.fin 0)) act42
      (runSteps cfgScenario (List.replicate 4 (ScoreVal.fin 0)) act42 2 st25)).1.terminatedQ
      = some true :=
  have H := C3_episode_length cfgScenario (List.replicate 4 (ScoreVal.fin 0)) act42 st25
    rfl (by decide) rfl rfl rfl rfl rfl rfl (by decide)
  ⟨H.1 0 (by decide), H.2⟩

end QOC
